import Mathlib

/-!
Verification of the pedestrian-sketchiness scoring pipeline.

The pipeline lives in four SQL scripts plus a small TypeScript helper:
  * `query_snippets/crosswalks.sql`        — feature classifier + road/crossing linker
  * `query_snippets/crosswalk_distances.sql` — road segmenter, same-name connectivity,
    nearest-marked-crossing resolver (two variants: name-radius and connected-component)
  * `query_snippets/unmarked_crosswalks.sql` — unmarked-crossing enricher
  * `app/frogger/page.tsx`                 — difficulty-label classification

Tables are embedded as Lean lists of row records; SQL three-valued booleans as
`Option Bool`; PostGIS distances as abstract rational-valued functions supplied
by the world; `ORDER BY … LIMIT 1` as a fold that keeps the first row that no
later row strictly beats (physical row order is the list order).
-/

/-! ## SQL three-valued logic (Kleene) -/

/-- SQL `OR` on nullable booleans. -/
def sqlOr : Option Bool → Option Bool → Option Bool
  | some true, _ => some true
  | _, some true => some true
  | some false, some false => some false
  | _, _ => none

/-- SQL `x IN (v1, …, vk)` where `x` may be NULL and the list holds literals. -/
def sqlIn (v : Option String) (l : List String) : Option Bool :=
  v.map (fun s => decide (s ∈ l))

/-- SQL `expr IS TRUE`: NULL and FALSE both map to false. -/
def sqlIsTrue : Option Bool → Bool
  | some true => true
  | _ => false

/-- SQL `expr IS FALSE`: NULL and TRUE both map to false. -/
def sqlIsFalse : Option Bool → Bool
  | some false => true
  | _ => false

/-! ## Tags (osm2pgsql hstore column) -/

/-- An hstore tag map: association list with unique keys; `tagGet` is `tags->'k'`. -/
abbrev Tags := List (String × String)

/-- Lookup `tags->'k'`: NULL when the key is absent. -/
def tagGet (t : Tags) (k : String) : Option String :=
  (t.find? (fun p => p.1 = k)).map (fun p => p.2)

/-- SQL `btrim(s)`: strip leading and trailing spaces (structurally, so that
concrete instances evaluate). -/
def btrim (s : String) : String :=
  ⟨((s.data.dropWhile (fun c => c = ' ')).reverse.dropWhile (fun c => c = ' ')).reverse⟩

/-! ## Feature classifier (`crosswalks.sql`, table `crosswalk_raw_points`) -/

/-- Column `COALESCE(NULLIF(tags->'crossing', ''), 'unknown')`. -/
def crossingType (t : Tags) : String :=
  match tagGet t "crossing" with
  | some v => if v = "" then "unknown" else v
  | none => "unknown"

/-- The marked-crossing vocabulary tested by the `IN` list of `crosswalks.sql`. -/
def markedVocab : List String :=
  ["controlled", "marked", "pedestrian_signals", "traffic_signals", "zebra", "uncontrolled"]

/-- Condition `tags->k IS NOT NULL AND tags->k != 'no'`.  The conjunction is two-valued:
when the tag is NULL the first conjunct is FALSE, and `FALSE AND NULL = FALSE`. -/
def auxTagOtherThanNo (t : Tags) (k : String) : Option Bool :=
  some (match tagGet t k with
        | some v => decide (v ≠ "no")
        | none => false)

/-- The `marked` column: `(tags->'crossing') IN (…) OR (crossing:markings …) OR
(crossing:signals …)`, under SQL three-valued logic. -/
def markedCol (t : Tags) : Option Bool :=
  sqlOr (sqlOr (sqlIn (tagGet t "crossing") markedVocab)
               (auxTagOtherThanNo t "crossing:markings"))
        (auxTagOtherThanNo t "crossing:signals")

/-- The `unmarked` column: `(tags->'crossing') = 'unmarked'` (NULL when tag absent). -/
def unmarkedCol (t : Tags) : Option Bool :=
  (tagGet t "crossing").map (fun v => decide (v = "unmarked"))

/-- Spec-side reading of "auxiliary tag present with a value other than `no`". -/
def auxPresentNotNo (t : Tags) (k : String) : Prop :=
  ∃ v, tagGet t k = some v ∧ v ≠ "no"

instance (t : Tags) (k : String) : Decidable (auxPresentNotNo t k) := by
  unfold auxPresentNotNo
  cases h : tagGet t k with
  | none => exact .isFalse (by simp [h])
  | some v => exact decidable_of_iff (v ≠ "no") (by simp [h])

/-! ## Difficulty label (`app/frogger/page.tsx`, `froggerDifficultyLabel`) -/

/-- Function `froggerDifficultyLabel` from the frogger page: `null`/non-finite input is
modelled as `none` and yields `'easy'`; finite numbers are modelled as rationals. -/
def froggerDifficultyLabel : Option ℚ → String
  | none => "easy"
  | some fi =>
    if fi < 0.2 then "easy"
    else if fi < 0.4 then "medium"
    else if fi < 0.6 then "hard"
    else "Ft. Lauderdale"

/-! ## Roads (`crosswalks.sql`, `crosswalks_params` and table `roads`) -/

/-- A planar point (EPSG:3857 coordinates, modelled exactly as rationals). -/
abbrev Point := ℚ × ℚ

/-- One simple line part of a (possibly multi-part) road geometry, as produced by
`ST_Dump(ST_LineMerge(geom))`.  `len` abstracts `ST_Length geom` (PostGIS computes
a Euclidean length; we carry it as data since only its ordering and arithmetic
are used). -/
structure GeomPart where
  pts : List Point
  len : ℚ
deriving DecidableEq

/-- A raw `planet_osm_line` row (the columns the pipeline reads). -/
structure LineFeature where
  osmId : Int
  highway : Option String
  name : Option String
  /-- Geometry `way`, already decomposed by `ST_Dump(ST_LineMerge(·))`; NULL geometry is `none`. -/
  way : Option (List GeomPart)
  tags : Tags
  /-- abstract result of `way && params.test_bbox` (unused: `use_bbox` is false). -/
  bboxHit : Bool
deriving DecidableEq

/-- Parameter `crosswalks_params.snap_dist = 0.2`, written as an explicit
numerator/denominator pair so that concrete instances evaluate by `decide`;
`snapDist_eq` checks the value. -/
def snapDist : ℚ := ⟨1, 5, by norm_num, by norm_num⟩

/-- Parameter `crosswalks_params.use_bbox = false`. -/
def useBbox : Bool := false

/-- Parameter `crosswalks_params.road_highways`. -/
def roadHighways : List String :=
  ["living_street",
   "primary", "primary_link",
   "residential",
   "secondary", "secondary_link",
   "tertiary", "tertiary_link",
   "trunk", "trunk_link"]

/-- A row of the `roads` table. -/
structure Road where
  roadOsmId : Int
  name : Option String
  highway : String
  mergedParts : List GeomPart
deriving DecidableEq

/-- The `roads` table: lines with non-NULL geometry whose `highway` is one of
`road_highways` (and, were `use_bbox` set, intersecting the test bbox). -/
def roadsTable (lines : List LineFeature) : List Road :=
  lines.filterMap (fun l =>
    match l.way, l.highway with
    | some parts, some h =>
      if h ∈ roadHighways ∧ (useBbox = false ∨ l.bboxHit) then
        some ⟨l.osmId, l.name, h, parts⟩
      else none
    | _, _ => none)

/-! ## Road segmenter (`crosswalk_distances.sql`, table `road_segments_20m`) -/

/-- Parameter `params.segment_len_m = 20.0`. -/
def segmentLenM : ℚ := 20

/-- Number of segments generated for a part of length `len`:
`generate_series(0, GREATEST(CEIL(len / L)::int - 1, 0))` yields
`GREATEST(CEIL(len / L) - 1, 0) + 1` values of `n`. -/
def segCount (len : ℚ) : ℕ :=
  (max (⌈len / segmentLenM⌉ - 1) 0).toNat + 1

/-- Lower fraction of segment `n`: `(n * segment_len_m) / geom_len`. -/
def segLo (len : ℚ) (n : ℕ) : ℚ := (n * segmentLenM) / len

/-- Upper fraction of segment `n`: `LEAST(((n + 1) * segment_len_m) / geom_len, 1.0)`. -/
def segHi (len : ℚ) (n : ℕ) : ℚ := min (((n : ℚ) + 1) * segmentLenM / len) 1

/-- A row of `road_segments_20m` (geometry as the parametric fraction interval of
its part; the outer `row_number` re-indexing over whole roads is order-dependent
and not consumed by any verified property, so rows keep their per-part `n`). -/
structure SegOut where
  roadOsmId : Int
  name : Option String
  highway : String
  segmentNo : ℕ
  lo : ℚ
  hi : ℚ
deriving DecidableEq

/-- CTEs `road_parts`/`road_parts_len`/`segmented`: dump each road into parts, drop
empty and zero-length parts, then cut each part parametrically. -/
def roadSegments20m (roads : List Road) : List SegOut :=
  roads.flatMap (fun r =>
    (r.mergedParts.filter (fun p => ¬ p.pts = [] ∧ 0 < p.len)).flatMap (fun p =>
      (List.range (segCount p.len)).map (fun n =>
        ⟨r.roadOsmId, r.name, r.highway, n, segLo p.len n, segHi p.len n⟩)))

/-! ## `ORDER BY … LIMIT 1` -/

/-- Semantics of `ORDER BY key LIMIT 1` over a table read in list order: keep the first row
that no later row strictly beats.  `better y x` means `y` sorts strictly before
`x`. -/
def pickFirstBest (better : α → α → Bool) : List α → Option α
  | [] => none
  | x :: xs => some (xs.foldl (fun best y => if better y best then y else best) x)

/-! ## Nearest-marked-crossing resolver (`crosswalk_distances.sql`, both variants) -/

/-- A row of `marked_crosswalk_road`. -/
structure McwRow where
  roadOsmId : Int
  crosswalkId : Int
deriving DecidableEq

/-- A row of `road_segments_20m` as read by the resolver. -/
structure SegRow where
  roadOsmId : Int
  name : Option String
  highway : String
  segmentNo : Int
deriving DecidableEq

/-- A `roads` row as read by the name-radius lateral join (`r2`). -/
structure RoadNameRow where
  roadOsmId : Int
  name : Option String
deriving DecidableEq

/-- A row of `roads_same_name_connected`. -/
structure ConnRow where
  startRoadOsmId : Int
  roadOsmId : Int
deriving DecidableEq

/-- The resolver's input tables plus the geometric distance oracle
(`ST_Distance(s.geom, m.geom)`, which is also the `<->` ordering key). -/
structure CwWorld where
  segments : List SegRow
  marked : List McwRow
  roads : List RoadNameRow
  conn : List ConnRow
  dist : SegRow → McwRow → ℚ

/-- The 500 m cap of the name-radius variant. -/
def searchRadius : ℚ := 500

/-- Condition `s.name IS NOT NULL AND btrim(s.name) <> '' AND r2.name = s.name`. -/
def sameNameOk (sname rname : Option String) : Bool :=
  match sname, rname with
  | some a, some b => btrim a ≠ "" && a = b
  | _, _ => false

/-- Candidate rows of the name-radius lateral subquery: `marked_crosswalk_road m
JOIN roads r2 ON r2.road_osm_id = m.road_osm_id WHERE … AND ST_DWithin(s.geom,
m.geom, 500.0)`. -/
def nameRadiusCands (w : CwWorld) (s : SegRow) : List McwRow :=
  w.marked.flatMap (fun m =>
    ((w.roads.filter (fun r2 =>
      decide (r2.roadOsmId = m.roadOsmId ∧ sameNameOk s.name r2.name = true ∧
              w.dist s m ≤ searchRadius))).map (fun _ => m)))

/-- Key `ORDER BY s.geom <-> m.geom`: strictly smaller distance sorts first. -/
def distBetter (w : CwWorld) (s : SegRow) (y x : McwRow) : Bool :=
  decide (w.dist s y < w.dist s x)

/-- The `LIMIT 1` row of the name-radius lateral subquery. -/
def nameRadiusNearest (w : CwWorld) (s : SegRow) : Option McwRow :=
  pickFirstBest (distBetter w s) (nameRadiusCands w s)

/-- Result `(nearest.crosswalk_id, COALESCE(nearest.dist_m, 500.0))` per segment. -/
def nameRadiusResult (w : CwWorld) (s : SegRow) : Option Int × ℚ :=
  match nameRadiusNearest w s with
  | some m => (some m.crosswalkId, w.dist s m)
  | none => (none, searchRadius)

/-- Candidate rows of the connected-component lateral subquery:
`marked_crosswalk_road m JOIN roads_same_name_connected c ON c.road_osm_id =
m.road_osm_id WHERE c.start_road_osm_id = s.road_osm_id`. -/
def ccCands (w : CwWorld) (s : SegRow) : List McwRow :=
  w.marked.flatMap (fun m =>
    ((w.conn.filter (fun c =>
      decide (c.roadOsmId = m.roadOsmId ∧ c.startRoadOsmId = s.roadOsmId))).map (fun _ => m)))

/-- The `LIMIT 1` row of the connected-component lateral subquery. -/
def ccNearest (w : CwWorld) (s : SegRow) : Option McwRow :=
  pickFirstBest (distBetter w s) (ccCands w s)

/-- Result `(nearest.crosswalk_id, nearest.dist_m)` per segment: no COALESCE here. -/
def ccResult (w : CwWorld) (s : SegRow) : Option Int × Option ℚ :=
  match ccNearest w s with
  | some m => (some m.crosswalkId, some (w.dist s m))
  | none => (none, none)

/-! ## Same-name connectivity (`crosswalk_distances.sql`, connected variant) -/

/-- A row of `roads_same_name_endpoints`. -/
structure EpRow where
  roadOsmId : Int
  name : String
  startPt : Option Point
  endPt : Option Point
deriving DecidableEq

/-- Predicate `ST_Equals` on possibly-NULL points (NULL compares to nothing). -/
def ptEq : Option Point → Option Point → Bool
  | some a, some b => decide (a = b)
  | _, _ => false

/-- Table `roads_same_name_endpoints`: roads with a non-NULL, non-blank name whose
merged geometry is a single LINESTRING; start/end via `ST_StartPoint`/`ST_EndPoint`. -/
def roadsSameNameEndpoints (roads : List Road) : List EpRow :=
  roads.filterMap (fun r =>
    match r.name with
    | some nm =>
      if btrim nm = "" then none
      else
        match r.mergedParts with
        | [p] => some ⟨r.roadOsmId, nm, p.pts.head?, p.pts.getLast?⟩
        | _ => none
    | none => none)

/-- A row of `roads_same_name_edges`. -/
structure EdgeRow where
  fromRoadOsmId : Int
  toRoadOsmId : Int
deriving DecidableEq

/-- Table `roads_same_name_edges`: distinct ids, equal names, touching endpoints. -/
def roadsSameNameEdges (eps : List EpRow) : List EdgeRow :=
  eps.flatMap (fun a =>
    ((eps.filter (fun b =>
      decide (a.roadOsmId ≠ b.roadOsmId ∧ a.name = b.name ∧
              (ptEq a.startPt b.endPt = true ∨ ptEq a.endPt b.startPt = true)))).map
      (fun b => ⟨a.roadOsmId, b.roadOsmId⟩)))

/-- A row of the recursive CTE `reach`. -/
structure ReachRow where
  startRoadOsmId : Int
  roadOsmId : Int
  path : List Int
deriving DecidableEq

/-- The non-recursive arm: `SELECT DISTINCT from_road_osm_id FROM roads_same_name_edges`. -/
def reachBase (edges : List EdgeRow) : List ReachRow :=
  ((edges.map (fun e => e.fromRoadOsmId)).dedup).map (fun i => ⟨i, i, [i]⟩)

/-- The recursive arm: extend each row along an edge whose target is not on the path. -/
def reachStep (edges : List EdgeRow) (rows : List ReachRow) : List ReachRow :=
  rows.flatMap (fun r =>
    ((edges.filter (fun e =>
      decide (e.fromRoadOsmId = r.roadOsmId ∧ e.toRoadOsmId ∉ r.path))).map
      (fun e => ⟨r.startRoadOsmId, e.toRoadOsmId, r.path ++ [e.toRoadOsmId]⟩)))

/-- Iterations of the recursive CTE. -/
def reachLevel (edges : List EdgeRow) : ℕ → List ReachRow
  | 0 => reachBase edges
  | k + 1 => reachStep edges (reachLevel edges k)

/-- All road ids occurring in the edge table. -/
def edgeNodes (edges : List EdgeRow) : List Int :=
  (edges.flatMap (fun e => [e.fromRoadOsmId, e.toRoadOsmId])).dedup

/-- All rows of the recursive CTE.  A row at level `k` carries a duplicate-free
path of `k + 1` ids drawn from `edgeNodes`, so every level beyond
`(edgeNodes edges).length` is empty and this truncation is exact
(`reachLevel_length_eq_nil`). -/
def reachRows (edges : List EdgeRow) : List ReachRow :=
  (List.range ((edgeNodes edges).length + 1)).flatMap (reachLevel edges)

/-- Table `roads_same_name_connected`: `SELECT DISTINCT start, road FROM reach UNION
SELECT id, id FROM roads_same_name_endpoints`. -/
def roadsSameNameConnected (roads : List Road) : List (Int × Int) :=
  (((reachRows (roadsSameNameEdges (roadsSameNameEndpoints roads))).map
      (fun r => (r.startRoadOsmId, r.roadOsmId))) ++
    ((roadsSameNameEndpoints roads).map (fun e => (e.roadOsmId, e.roadOsmId)))).dedup

/-! ## Road–crossing linker and enricher (`crosswalks.sql`, `unmarked_crosswalks.sql`) -/

/-- A raw `planet_osm_point` row (the columns the pipeline reads). -/
structure PointFeature where
  osmId : Int
  highway : Option String
  tags : Tags
  /-- abstract result of `way && params.test_bbox` (unused: `use_bbox` is false). -/
  bboxHit : Bool
deriving DecidableEq

/-- A row of `crosswalk_raw_points`: the classifier applied to a point feature. -/
structure CwRawPoint where
  feat : PointFeature
  crossingType : String
  marked : Option Bool
  unmarked : Option Bool
deriving DecidableEq

/-- Table `crosswalk_raw_points`: point features tagged `highway = 'crossing'`,
classified. -/
def crosswalkRawPoints (pts : List PointFeature) : List CwRawPoint :=
  (pts.filter (fun p =>
      decide (p.highway = some "crossing" ∧ (useBbox = false ∨ p.bboxHit = true)))).map
    (fun p => ⟨p, crossingType p.tags, markedCol p.tags, unmarkedCol p.tags⟩)

/-- A row of `road_segments_20m_crosswalk_dist` as the enricher reads it.  The
scoring columns (`speed_mph`, sub-scores, `frogger_index`) are written by a
scoring step the enricher only consumes, so they are carried as row data. -/
structure SegDistRow where
  roadOsmId : Int
  segmentNo : Int
  highway : String
  nearestMarkedCrosswalkId : Option Int
  distToMarkedCrosswalkM : Option ℚ
  maxspeed : Option String
  lanesRaw : Option String
  lanes : Option Int
  speedMph : Option ℚ
  speedScore : Option ℚ
  lanesScore : Option ℚ
  volumeScore : Option ℚ
  distanceFromCrosswalkScore : Option ℚ
  froggerIndex : Option ℚ
deriving DecidableEq

/-- Input tables of the linker/enricher plus the geometric distance oracles
(`ST_Distance` between a point and a road line, and between a point and a
segment geometry). -/
structure EnrichWorld where
  points : List PointFeature
  lines : List LineFeature
  segRows : List SegDistRow
  pointRoadDist : PointFeature → Road → ℚ
  pointSegDist : PointFeature → SegDistRow → ℚ

/-- A row of `road_crosswalks` (the point-kind rows; no line crosswalks are
produced by `crosswalks.sql`). -/
structure RoadCwRow where
  roadOsmId : Int
  pointOsmId : Int
deriving DecidableEq

/-- Table `road_crosswalks`: every (crossing point, road) pair within `snap_dist`.
The `r.geom && ST_Expand(cp.geom, snap_dist)` pre-filter is implied by
`ST_DWithin`, so the conjunction is `ST_DWithin` alone. -/
def roadCrosswalks (w : EnrichWorld) : List RoadCwRow :=
  (crosswalkRawPoints w.points).flatMap (fun cp =>
    (((roadsTable w.lines).filter
        (fun r => decide (w.pointRoadDist cp.feat r ≤ snapDist))).map
      (fun r => ⟨r.roadOsmId, cp.feat.osmId⟩)))

/-- Aggregate `roads_by_point` for one point id:
`array_agg(DISTINCT road_osm_id ORDER BY road_osm_id)` (insertion sort, which
the kernel can evaluate, realizes the ascending aggregate order). -/
def roadsByPoint (w : EnrichWorld) (pid : Int) : List Int :=
  List.insertionSort (fun a b => a ≤ b)
    ((((roadCrosswalks w).filter (fun rc => decide (rc.pointOsmId = pid))).map
      (fun rc => rc.roadOsmId)).dedup)

/-- A row of `crosswalk_points`. -/
structure CwPointRow where
  raw : CwRawPoint
  roadOsmIds : List Int
deriving DecidableEq

/-- Table `crosswalk_points`: raw crossing points inner-joined with their aggregated
road list (points with no linkage are dropped by the join). -/
def crosswalkPoints (w : EnrichWorld) : List CwPointRow :=
  (crosswalkRawPoints w.points).filterMap (fun cp =>
    match roadsByPoint w cp.feat.osmId with
    | [] => none
    | rid :: rids => some ⟨cp, rid :: rids⟩)

/-- The enricher's snap tolerance (`ST_DWithin(cp.geom, s.geom, 0.5)`), written
as an explicit numerator/denominator pair so that concrete instances evaluate by
`decide`; `enrichSnapTol_eq` checks the value. -/
def enrichSnapTol : ℚ := ⟨1, 2, by norm_num, by norm_num⟩

/-- Candidate segments of the enricher's lateral subquery: segments of the
point's linked roads within `enrichSnapTol` of the point. -/
def enrichCands (w : EnrichWorld) (cp : CwPointRow) : List SegDistRow :=
  cp.roadOsmIds.flatMap (fun rid =>
    w.segRows.filter (fun s =>
      decide (s.roadOsmId = rid ∧ w.pointSegDist cp.raw.feat s ≤ enrichSnapTol)))

/-- Key `frogger_index DESC NULLS LAST` as a strict sorts-before test. -/
def idxBefore : Option ℚ → Option ℚ → Bool
  | some a, some b => decide (b < a)
  | some _, none => true
  | none, _ => false

/-- Key `ORDER BY s.frogger_index DESC NULLS LAST, cp.geom <-> s.geom` as a strict
sorts-before test. -/
def segBetter (w : EnrichWorld) (cp : CwPointRow) (y x : SegDistRow) : Bool :=
  idxBefore y.froggerIndex x.froggerIndex ||
    (decide (y.froggerIndex = x.froggerIndex) &&
     decide (w.pointSegDist cp.raw.feat y < w.pointSegDist cp.raw.feat x))

/-- The `LIMIT 1` row (`best`) of the enricher's lateral subquery. -/
def enrichBest (w : EnrichWorld) (cp : CwPointRow) : Option SegDistRow :=
  pickFirstBest (segBetter w cp) (enrichCands w cp)

/-- The difficulty-override road classes. -/
def overrideClasses : List String := ["residential", "living_street", "service"]

/-- A row of `unmarked_crosswalk_points_enriched` (the derived columns). -/
structure EnrichedRow where
  pointOsmId : Int
  crossingType : String
  unmarked : Option Bool
  froggerRoadOsmId : Option Int
  froggerRoadName : Option String
  froggerRoadHighway : Option String
  froggerMaxspeed : Option String
  froggerLanes : Option Int
  froggerSpeedMph : Option ℚ
  froggerDistToMarkedCrosswalkM : Option ℚ
  froggerSpeedScore : Option ℚ
  froggerLanesScore : Option ℚ
  froggerVolumeScore : Option ℚ
  froggerDistanceFromCrosswalkScore : Option ℚ
  froggerIndex : Option ℚ
deriving DecidableEq

/-- One output row of the enricher for a `crosswalk_points` row: copy the best
segment's columns (all NULL when no candidate is in tolerance) and re-apply the
residential/living_street/service override to `frogger_index`.  When `best` is
NULL the CASE's `IN` test is NULL, so the ELSE branch yields NULL. -/
def enrichRow (w : EnrichWorld) (cp : CwPointRow) : EnrichedRow :=
  match enrichBest w cp with
  | some b =>
    { pointOsmId := cp.raw.feat.osmId
      crossingType := cp.raw.crossingType
      unmarked := cp.raw.unmarked
      froggerRoadOsmId := some b.roadOsmId
      froggerRoadName :=
        ((roadsTable w.lines).find? (fun r => decide (r.roadOsmId = b.roadOsmId))).bind
          (fun r => r.name)
      froggerRoadHighway := some b.highway
      froggerMaxspeed := b.maxspeed
      froggerLanes := b.lanes
      froggerSpeedMph := b.speedMph
      froggerDistToMarkedCrosswalkM := b.distToMarkedCrosswalkM
      froggerSpeedScore := b.speedScore
      froggerLanesScore := b.lanesScore
      froggerVolumeScore := b.volumeScore
      froggerDistanceFromCrosswalkScore := b.distanceFromCrosswalkScore
      froggerIndex := if b.highway ∈ overrideClasses then some 0 else b.froggerIndex }
  | none =>
    { pointOsmId := cp.raw.feat.osmId
      crossingType := cp.raw.crossingType
      unmarked := cp.raw.unmarked
      froggerRoadOsmId := none
      froggerRoadName := none
      froggerRoadHighway := none
      froggerMaxspeed := none
      froggerLanes := none
      froggerSpeedMph := none
      froggerDistToMarkedCrosswalkM := none
      froggerSpeedScore := none
      froggerLanesScore := none
      froggerVolumeScore := none
      froggerDistanceFromCrosswalkScore := none
      froggerIndex := none }

/-- Table `unmarked_crosswalk_points_enriched`: one row per `crosswalk_points` row
with `unmarked IS TRUE`. -/
def unmarkedCrosswalkPointsEnriched (w : EnrichWorld) : List EnrichedRow :=
  ((crosswalkPoints w).filter (fun cp => sqlIsTrue cp.raw.unmarked)).map (enrichRow w)

/-! ## Helper lemmas -/

theorem snapDist_eq : snapDist = 0.2 := by
  unfold snapDist
  rw [Rat.mk'_eq_divInt, Rat.divInt_eq_div]
  norm_num

theorem enrichSnapTol_eq : enrichSnapTol = 0.5 := by
  unfold enrichSnapTol
  rw [Rat.mk'_eq_divInt, Rat.divInt_eq_div]
  norm_num

theorem pickFold_mem_or {α : Type _} (better : α → α → Bool) :
    ∀ (xs : List α) (acc : α),
      xs.foldl (fun best y => if better y best then y else best) acc = acc ∨
      xs.foldl (fun best y => if better y best then y else best) acc ∈ xs := by
  intro xs
  induction xs with
  | nil => intro acc; left; rfl
  | cons y ys ih =>
    intro acc
    simp only [List.foldl_cons]
    rcases ih (if better y acc then y else acc) with h | h
    · by_cases hb : better y acc
      · right; rw [h, if_pos hb]; exact List.mem_cons_self y ys
      · left; rw [h, if_neg hb]
    · right; exact List.mem_cons_of_mem _ h

theorem pickFold_not_better {α : Type _} (better : α → α → Bool)
    (hirr : ∀ a, better a a = false)
    (htrans : ∀ a b c, better a b = true → better b c = true → better a c = true) :
    ∀ (xs : List α) (acc : α),
      (∀ c, better c acc = false →
        better c (xs.foldl (fun best y => if better y best then y else best) acc) = false) ∧
      (∀ c ∈ xs,
        better c (xs.foldl (fun best y => if better y best then y else best) acc) = false) := by
  intro xs
  induction xs with
  | nil =>
    intro acc
    refine ⟨fun c hc => hc, fun c hc => absurd hc (List.not_mem_nil c)⟩
  | cons y ys ih =>
    intro acc
    simp only [List.foldl_cons]
    have hkeep : ∀ c, better c acc = false → better c (if better y acc then y else acc) = false := by
      intro c hc
      by_cases hb : better y acc
      · rw [if_pos hb]
        by_contra hcy
        have hcy' : better c y = true := by
          cases h' : better c y with
          | true => rfl
          | false => exact absurd h' hcy
        have := htrans c y acc hcy' hb
        rw [hc] at this
        exact Bool.noConfusion this
      · rw [if_neg hb]; exact hc
    have hy : better y (if better y acc then y else acc) = false := by
      by_cases hb : better y acc
      · rw [if_pos hb]; exact hirr y
      · rw [if_neg hb]
        cases h' : better y acc with
        | true => exact absurd h' hb
        | false => rfl
    refine ⟨fun c hc => (ih _).1 c (hkeep c hc), ?_⟩
    intro c hc
    rcases List.mem_cons.mp hc with rfl | hc
    · exact (ih _).1 c hy
    · exact (ih _).2 c hc

theorem pickFirstBest_mem {α : Type _} {better : α → α → Bool} {l : List α} {m : α}
    (h : pickFirstBest better l = some m) : m ∈ l := by
  cases l with
  | nil => exact Option.noConfusion h
  | cons x xs =>
    have hm := Option.some.inj h
    rcases pickFold_mem_or better xs x with h' | h'
    · rw [← hm, h']; exact List.mem_cons_self x xs
    · rw [← hm]; exact List.mem_cons_of_mem _ h'

theorem pickFirstBest_spec {α : Type _} {better : α → α → Bool}
    (hirr : ∀ a, better a a = false)
    (htrans : ∀ a b c, better a b = true → better b c = true → better a c = true)
    {l : List α} {m : α} (h : pickFirstBest better l = some m) :
    ∀ c ∈ l, better c m = false := by
  cases l with
  | nil => exact absurd h (by simp [pickFirstBest])
  | cons x xs =>
    have hm := Option.some.inj h
    intro c hc
    rcases List.mem_cons.mp hc with rfl | hc
    · rw [← hm]; exact (pickFold_not_better better hirr htrans xs c).1 c (hirr c)
    · rw [← hm]; exact (pickFold_not_better better hirr htrans xs x).2 c hc

/-! ## Classifier lemmas -/

theorem auxTag_true_iff (t : Tags) (k : String) :
    auxTagOtherThanNo t k = some true ↔ auxPresentNotNo t k := by
  unfold auxTagOtherThanNo auxPresentNotNo
  cases h : tagGet t k with
  | none => simp
  | some v => simp [h]

theorem auxTag_false_of_not (t : Tags) (k : String) (h : ¬ auxPresentNotNo t k) :
    auxTagOtherThanNo t k = some false := by
  unfold auxTagOtherThanNo
  cases hv : tagGet t k with
  | none => rfl
  | some v =>
    simp only
    have : ¬ v ≠ "no" := fun hne => h ⟨v, hv, hne⟩
    simp [this]

theorem crossingType_mem_vocab_iff (t : Tags) :
    crossingType t ∈ markedVocab ↔ sqlIn (tagGet t "crossing") markedVocab = some true := by
  unfold crossingType sqlIn
  cases h : tagGet t "crossing" with
  | none => simp [markedVocab]
  | some v =>
    by_cases hv : v = ""
    · subst hv; simp [markedVocab]
    · simp [hv]

theorem marked_isTrue_iff (t : Tags) :
    sqlIsTrue (markedCol t) = true ↔
      (crossingType t ∈ markedVocab ∨ auxPresentNotNo t "crossing:markings" ∨
        auxPresentNotNo t "crossing:signals") := by
  unfold markedCol
  rw [crossingType_mem_vocab_iff, ← auxTag_true_iff t "crossing:markings",
      ← auxTag_true_iff t "crossing:signals"]
  rcases hm : auxTagOtherThanNo t "crossing:markings" with _ | bm
  · exact absurd hm (by unfold auxTagOtherThanNo; cases tagGet t "crossing:markings" <;> simp)
  rcases hs : auxTagOtherThanNo t "crossing:signals" with _ | bs
  · exact absurd hs (by unfold auxTagOtherThanNo; cases tagGet t "crossing:signals" <;> simp)
  rcases hin : sqlIn (tagGet t "crossing") markedVocab with _ | bin
  · cases bm <;> cases bs <;> simp [sqlOr, sqlIsTrue]
  · cases bin <;> cases bm <;> cases bs <;> simp [sqlOr, sqlIsTrue]

theorem sqlIsTrue_some (b : Bool) : sqlIsTrue (some b) = b := by cases b <;> rfl

theorem unmarked_isTrue_iff (t : Tags) :
    sqlIsTrue (unmarkedCol t) = true ↔ tagGet t "crossing" = some "unmarked" := by
  unfold unmarkedCol
  cases h : tagGet t "crossing" with
  | none => simp [sqlIsTrue]
  | some v =>
    simp only [Option.map_some', sqlIsTrue_some, decide_eq_true_eq, Option.some.injEq]

/-- C2: every `crosswalk_raw_points` row sets `crossing_type` to the `crossing`
tag's value, falling back to the literal `"unknown"` when the tag is absent or
empty, and its `marked` column is true exactly when `crossing_type` is in the
fixed vocabulary or `crossing:markings`/`crossing:signals` is present with a
value other than `"no"`. -/
theorem classifier_crossing_type_marked (pts : List PointFeature) (row : CwRawPoint)
    (hrow : row ∈ crosswalkRawPoints pts) :
    (∀ v, tagGet row.feat.tags "crossing" = some v → v ≠ "" → row.crossingType = v) ∧
    ((tagGet row.feat.tags "crossing" = none ∨ tagGet row.feat.tags "crossing" = some "") →
      row.crossingType = "unknown") ∧
    (sqlIsTrue row.marked = true ↔
      (row.crossingType ∈ markedVocab ∨ auxPresentNotNo row.feat.tags "crossing:markings" ∨
        auxPresentNotNo row.feat.tags "crossing:signals")) := by
  rcases List.mem_map.mp hrow with ⟨p, _, rfl⟩
  refine ⟨?_, ?_, marked_isTrue_iff p.tags⟩
  · intro v hv hne
    show crossingType p.tags = v
    unfold crossingType
    rw [hv]
    simp [hne]
  · intro hcase
    show crossingType p.tags = "unknown"
    unfold crossingType
    rcases hcase with h | h
    · rw [h]
    · rw [h]; simp

/-- Witness world for the classifier claim. -/
def c2Pts : List PointFeature := [⟨1, some "crossing", [("crossing", "zebra")], false⟩]

/-- Witness row for the classifier claim. -/
def c2Row : CwRawPoint :=
  ⟨⟨1, some "crossing", [("crossing", "zebra")], false⟩,
   crossingType [("crossing", "zebra")], markedCol [("crossing", "zebra")],
   unmarkedCol [("crossing", "zebra")]⟩

theorem classifier_crossing_type_marked_witness :
    c2Row ∈ crosswalkRawPoints c2Pts ∧
    (c2Row.crossingType = "zebra" ∧
      (sqlIsTrue c2Row.marked = true ↔
        (c2Row.crossingType ∈ markedVocab ∨ auxPresentNotNo c2Row.feat.tags "crossing:markings" ∨
          auxPresentNotNo c2Row.feat.tags "crossing:signals"))) :=
  ⟨by decide,
   (classifier_crossing_type_marked c2Pts c2Row (by decide)).1 "zebra" (by decide) (by decide),
   (classifier_crossing_type_marked c2Pts c2Row (by decide)).2.2⟩

/-- C5 counterexample input: a crossing tagged `crossing=unmarked` together with
`crossing:markings=yes`. -/
def c5Pt : PointFeature :=
  ⟨5, some "crossing", [("crossing", "unmarked"), ("crossing:markings", "yes")], false⟩

/-- C5 counterexample: the classifier emits a row whose `marked` and `unmarked`
columns are simultaneously true. -/
theorem marked_unmarked_both_true_cex :
    (crosswalkRawPoints [c5Pt]).map (fun r => (sqlIsTrue r.marked, sqlIsTrue r.unmarked)) =
      [(true, true)] := by decide

/-- C5 amended: `marked` and `unmarked` are never simultaneously true provided
neither `crossing:markings` nor `crossing:signals` is present with a value other
than `"no"`; with such an auxiliary tag the pair can be simultaneously true. -/
theorem marked_unmarked_exclusive (pts : List PointFeature) (row : CwRawPoint)
    (hrow : row ∈ crosswalkRawPoints pts)
    (hm : ¬ auxPresentNotNo row.feat.tags "crossing:markings")
    (hs : ¬ auxPresentNotNo row.feat.tags "crossing:signals") :
    ¬ (sqlIsTrue row.marked = true ∧ sqlIsTrue row.unmarked = true) := by
  rintro ⟨hmk, hun⟩
  rcases List.mem_map.mp hrow with ⟨p, _, rfl⟩
  have htag : tagGet p.tags "crossing" = some "unmarked" :=
    (unmarked_isTrue_iff p.tags).mp hun
  have hct : crossingType p.tags = "unknown" ∨ crossingType p.tags = "unmarked" := by
    right
    unfold crossingType
    rw [htag]
    simp
  rcases (marked_isTrue_iff p.tags).mp hmk with hv | hax | hax
  · rcases hct with h | h <;> rw [h] at hv <;> revert hv <;> decide
  · exact hm hax
  · exact hs hax

/-- Witness crossing for the amended exclusivity claim. -/
def c5GoodPt : PointFeature := ⟨6, some "crossing", [("crossing", "unmarked")], false⟩

/-- Witness row for the amended exclusivity claim. -/
def c5GoodRow : CwRawPoint :=
  ⟨c5GoodPt, crossingType c5GoodPt.tags, markedCol c5GoodPt.tags, unmarkedCol c5GoodPt.tags⟩

theorem marked_unmarked_exclusive_witness :
    ¬ (sqlIsTrue c5GoodRow.marked = true ∧ sqlIsTrue c5GoodRow.unmarked = true) :=
  marked_unmarked_exclusive [c5GoodPt] c5GoodRow (by decide) (by decide) (by decide)

/-- C9: the difficulty-label classification is a total deterministic function of
the difficulty index: `< 0.2` easy, `[0.2, 0.4)` medium, `[0.4, 0.6)` hard,
`≥ 0.6` the top bucket. -/
theorem frogger_difficulty_label_buckets (fi : ℚ) :
    (fi < 0.2 → froggerDifficultyLabel (some fi) = "easy") ∧
    (0.2 ≤ fi → fi < 0.4 → froggerDifficultyLabel (some fi) = "medium") ∧
    (0.4 ≤ fi → fi < 0.6 → froggerDifficultyLabel (some fi) = "hard") ∧
    (0.6 ≤ fi → froggerDifficultyLabel (some fi) = "Ft. Lauderdale") := by
  refine ⟨fun h1 => ?_, fun h1 h2 => ?_, fun h1 h2 => ?_, fun h1 => ?_⟩ <;>
    (simp only [froggerDifficultyLabel]; split_ifs <;> first | rfl | linarith)

theorem frogger_difficulty_label_buckets_witness :
    (0.2 : ℚ) ≤ 3/10 ∧ (3/10 : ℚ) < 0.4 ∧ froggerDifficultyLabel (some (3/10)) = "medium" :=
  ⟨by norm_num, by norm_num,
   (frogger_difficulty_label_buckets (3/10)).2.1 (by norm_num) (by norm_num)⟩

/-- C3: for a part of positive length `len` the segmenter produces exactly
`max(ceil(len / 20), 1)` segments; each segment's upper fraction never exceeds
the next segment's lower fraction (no overlap), and the segment lengths sum to
the part length exactly. -/
theorem segmenter_count_cover (len : ℚ) (hlen : 0 < len) :
    segCount len = max (⌈len / segmentLenM⌉.toNat) 1 ∧
    (∀ n : ℕ, segHi len n ≤ segLo len (n + 1)) ∧
    (∑ n ∈ Finset.range (segCount len), (segHi len n - segLo len n) * len) = len := by
  have hL : (0 : ℚ) < segmentLenM := by norm_num [segmentLenM]
  have hq : 0 < len / segmentLenM := div_pos hlen hL
  have hN1 : 1 ≤ ⌈len / segmentLenM⌉ := Int.ceil_pos.mpr hq
  set N : ℤ := ⌈len / segmentLenM⌉ with hNdef
  have hcount : segCount len = N.toNat := by
    unfold segCount
    rw [← hNdef]
    omega
  have hfirst : segCount len = max (N.toNat) 1 := by omega
  refine ⟨hfirst, ?_, ?_⟩
  · intro n
    unfold segLo segHi
    push_cast
    exact min_le_left _ _
  · have hlo : ∀ n : ℕ, n < segCount len →
        segLo len n = min ((n : ℚ) * segmentLenM / len) 1 := by
      intro n hn
      have hnN : (n : ℤ) ≤ N - 1 := by
        rw [hcount] at hn
        omega
      have h1 : ((n : ℚ)) < len / segmentLenM := by
        have hceil : ((N : ℚ)) - 1 < len / segmentLenM := by
          have hc := Int.ceil_lt_add_one (len / segmentLenM)
          rw [← hNdef] at hc
          linarith
        have hcast : ((n : ℚ)) ≤ ((N : ℚ)) - 1 := by
          have h' : ((n : ℤ) : ℚ) ≤ ((N - 1 : ℤ) : ℚ) := by exact_mod_cast hnN
          push_cast at h'
          linarith
        linarith
      have h2 : (n : ℚ) * segmentLenM / len < 1 := by
        rw [div_lt_one hlen]
        calc (n : ℚ) * segmentLenM < (len / segmentLenM) * segmentLenM :=
              mul_lt_mul_of_pos_right h1 hL
          _ = len := div_mul_cancel₀ len (ne_of_gt hL)
      unfold segLo
      rw [min_eq_left h2.le]
    have hterm : ∀ n ∈ Finset.range (segCount len),
        (segHi len n - segLo len n) * len =
          (min ((((n : ℕ) + 1 : ℕ) : ℚ) * segmentLenM / len) 1 -
            min ((n : ℚ) * segmentLenM / len) 1) * len := by
      intro n hn
      rw [hlo n (Finset.mem_range.mp hn)]
      unfold segHi
      push_cast
      ring
    have hsum : (∑ n ∈ Finset.range (segCount len),
        (min ((((n : ℕ) + 1 : ℕ) : ℚ) * segmentLenM / len) 1 -
          min ((n : ℚ) * segmentLenM / len) 1)) = 1 := by
      rw [Finset.sum_range_sub (fun n => min ((n : ℚ) * segmentLenM / len) 1)]
      have hge : (1 : ℚ) ≤ (segCount len : ℚ) * segmentLenM / len := by
        have hle : len / segmentLenM ≤ (N : ℚ) := by
          have h' := Int.le_ceil (len / segmentLenM)
          rw [← hNdef] at h'
          exact h'
        have hlen' : len ≤ (N : ℚ) * segmentLenM := by
          rw [div_le_iff₀ hL] at hle
          linarith
        have hNq : ((N.toNat : ℕ) : ℚ) = (N : ℚ) := by
          have h' : (N.toNat : ℤ) = N := Int.toNat_of_nonneg (by omega)
          exact_mod_cast h'
        rw [hcount, hNq, le_div_iff₀ hlen]
        linarith
      rw [min_eq_right hge]
      simp
    calc (∑ n ∈ Finset.range (segCount len), (segHi len n - segLo len n) * len)
        = (∑ n ∈ Finset.range (segCount len),
            (min ((((n : ℕ) + 1 : ℕ) : ℚ) * segmentLenM / len) 1 -
              min ((n : ℚ) * segmentLenM / len) 1)) * len := by
          rw [Finset.sum_mul]
          exact Finset.sum_congr rfl hterm
      _ = len := by rw [hsum, one_mul]

theorem segmenter_count_cover_witness :
    (0 : ℚ) < 50 ∧ segCount 50 = max (⌈(50 : ℚ) / segmentLenM⌉.toNat) 1 ∧
      (∑ n ∈ Finset.range (segCount 50), (segHi 50 n - segLo 50 n) * 50) = 50 :=
  ⟨by norm_num, (segmenter_count_cover 50 (by norm_num)).1,
   (segmenter_count_cover 50 (by norm_num)).2.2⟩

theorem mem_nameRadiusCands_dist {w : CwWorld} {s : SegRow} {m : McwRow}
    (h : m ∈ nameRadiusCands w s) : w.dist s m ≤ searchRadius := by
  rcases List.mem_flatMap.mp h with ⟨m', hm', hmem⟩
  rcases List.mem_map.mp hmem with ⟨r2, hr2, heq⟩
  rcases List.mem_filter.mp hr2 with ⟨_, hpred⟩
  have hp := of_decide_eq_true hpred
  have : w.dist s m' ≤ searchRadius := hp.2.2
  simpa [← heq] using this

/-- C1: the name-radius resolver's reported distance never exceeds the 500 m
search radius, and is exactly 500 with a NULL crossing id when no candidate
marked crossing on a same-named road lies within radius; the
connected-component resolver reports NULL when the component has no linked
marked crossing, and otherwise the exact, uncapped distance of the chosen
crossing. -/
theorem resolver_radius_cap_and_sentinel (w : CwWorld) (s : SegRow) :
    (nameRadiusResult w s).2 ≤ searchRadius ∧
    (nameRadiusCands w s = [] → nameRadiusResult w s = (none, searchRadius)) ∧
    (ccCands w s = [] → ccResult w s = (none, none)) ∧
    (∀ m, ccNearest w s = some m →
      m ∈ ccCands w s ∧ (ccResult w s).2 = some (w.dist s m)) := by
  refine ⟨?_, ?_, ?_, ?_⟩
  · unfold nameRadiusResult
    cases h : nameRadiusNearest w s with
    | none => exact le_refl _
    | some m => exact mem_nameRadiusCands_dist (pickFirstBest_mem h)
  · intro hc
    unfold nameRadiusResult nameRadiusNearest
    rw [hc]
    rfl
  · intro hc
    unfold ccResult ccNearest
    rw [hc]
    rfl
  · intro m hm
    refine ⟨pickFirstBest_mem hm, ?_⟩
    unfold ccResult
    rw [hm]

/-- Witness world (empty tables) for the radius-cap claim. -/
def c1World : CwWorld := ⟨[], [], [], [], fun _ _ => 0⟩

/-- Witness segment for the radius-cap claim. -/
def c1Seg : SegRow := ⟨1, some "A", "primary", 0⟩

theorem resolver_radius_cap_and_sentinel_witness :
    (nameRadiusResult c1World c1Seg).2 ≤ searchRadius ∧
    nameRadiusResult c1World c1Seg = (none, searchRadius) ∧
    ccResult c1World c1Seg = (none, none) :=
  ⟨(resolver_radius_cap_and_sentinel c1World c1Seg).1,
   (resolver_radius_cap_and_sentinel c1World c1Seg).2.1 rfl,
   (resolver_radius_cap_and_sentinel c1World c1Seg).2.2.1 rfl⟩

/-- Tie world for the tie-break claim: crossings 2 and 1 (in that table order)
are linked to road 1 at equal distance 10 from the segment. -/
def c4World : CwWorld :=
  ⟨[⟨1, some "A", "primary", 0⟩],
   [⟨1, 2⟩, ⟨1, 1⟩],
   [⟨1, some "A"⟩],
   [⟨1, 1⟩],
   fun _ _ => 10⟩

/-- Tie segment for the tie-break claim. -/
def c4Seg : SegRow := ⟨1, some "A", "primary", 0⟩

/-- C4 counterexample: crossings 1 and 2 are both candidates at equal distance,
yet both policies return id 2 — the first table row — not the smallest id:
`ORDER BY s.geom <-> m.geom LIMIT 1` carries no identifier tie-break. -/
theorem resolver_tie_break_cex :
    (⟨1, 1⟩ : McwRow) ∈ nameRadiusCands c4World c4Seg ∧
    (⟨1, 2⟩ : McwRow) ∈ nameRadiusCands c4World c4Seg ∧
    c4World.dist c4Seg ⟨1, 1⟩ = c4World.dist c4Seg ⟨1, 2⟩ ∧
    (⟨1, 1⟩ : McwRow) ∈ ccCands c4World c4Seg ∧
    (⟨1, 2⟩ : McwRow) ∈ ccCands c4World c4Seg ∧
    (nameRadiusResult c4World c4Seg).1 = some 2 ∧
    (ccResult c4World c4Seg).1 = some 2 ∧
    (2 : Int) ≠ 1 := by decide

/-- C4 amended: under both policies the returned crossing is at minimal distance
among the candidates; equidistant ties are resolved by table row order (the
first row wins), not by crossing identifier. -/
theorem resolver_min_dist (w : CwWorld) (s : SegRow) :
    (∀ m, nameRadiusNearest w s = some m →
      ∀ c ∈ nameRadiusCands w s, w.dist s m ≤ w.dist s c) ∧
    (∀ m, ccNearest w s = some m →
      ∀ c ∈ ccCands w s, w.dist s m ≤ w.dist s c) := by
  have hirr : ∀ a, distBetter w s a a = false := by
    intro a
    simp [distBetter]
  have htrans : ∀ a b c, distBetter w s a b = true → distBetter w s b c = true →
      distBetter w s a c = true := by
    intro a b c hab hbc
    simp only [distBetter, decide_eq_true_eq] at hab hbc ⊢
    linarith
  constructor <;>
    · intro m hm c hc
      have h := pickFirstBest_spec hirr htrans hm c hc
      simp only [distBetter, decide_eq_false_iff_not, not_lt] at h
      exact h

theorem resolver_min_dist_witness :
    nameRadiusNearest c4World c4Seg = some ⟨1, 2⟩ ∧
    c4World.dist c4Seg ⟨1, 2⟩ ≤ c4World.dist c4Seg ⟨1, 1⟩ :=
  ⟨by decide, (resolver_min_dist c4World c4Seg).1 ⟨1, 2⟩ (by decide) ⟨1, 1⟩ (by decide)⟩

theorem reachLevel_path_sound (edges : List EdgeRow) :
    ∀ k, ∀ row ∈ reachLevel edges k,
      row.path.length = k + 1 ∧ row.path.Nodup ∧ ∀ x ∈ row.path, x ∈ edgeNodes edges := by
  intro k
  induction k with
  | zero =>
    intro row hrow
    rcases List.mem_map.mp hrow with ⟨i, hi, rfl⟩
    rcases List.mem_map.mp (List.mem_dedup.mp hi) with ⟨e, he, rfl⟩
    refine ⟨rfl, List.nodup_singleton _, ?_⟩
    intro x hx
    rcases List.mem_singleton.mp hx with rfl
    exact List.mem_dedup.mpr (List.mem_flatMap.mpr ⟨e, he, by simp⟩)
  | succ k ih =>
    intro row hrow
    rcases List.mem_flatMap.mp hrow with ⟨r, hr, hmem⟩
    rcases List.mem_map.mp hmem with ⟨e, he, rfl⟩
    rcases List.mem_filter.mp he with ⟨heedges, hpred⟩
    have hp := of_decide_eq_true hpred
    obtain ⟨hlen, hnd, hsub⟩ := ih r hr
    refine ⟨by simp [hlen], ?_, ?_⟩
    · simp only [List.nodup_append, List.nodup_singleton, List.disjoint_singleton]
      exact ⟨hnd, trivial, hp.2⟩
    · intro x hx
      rcases List.mem_append.mp hx with hx | hx
      · exact hsub x hx
      · rcases List.mem_singleton.mp hx with rfl
        exact List.mem_dedup.mpr (List.mem_flatMap.mpr ⟨e, heedges, by simp⟩)

theorem reachLevel_big_eq_nil (edges : List EdgeRow) (k : ℕ)
    (hk : (edgeNodes edges).length ≤ k) : reachLevel edges k = [] := by
  by_contra h
  obtain ⟨row, hrow⟩ := List.exists_mem_of_ne_nil _ h
  obtain ⟨hlen, hnd, hsub⟩ := reachLevel_path_sound edges k row hrow
  have hle : row.path.length ≤ (edgeNodes edges).length :=
    (List.Nodup.subperm hnd (fun x hx => hsub x hx)).length_le
  omega

/-- C6 counterexample road: non-empty name, but the merged geometry has two
parts (a MULTILINESTRING). -/
def c6Road : Road :=
  ⟨7, some "A", "residential", [⟨[(0, 0), (1, 0)], 1⟩, ⟨[(2, 0), (3, 0)], 1⟩]⟩

/-- C6 counterexample: a road with the non-empty name "A" whose merged geometry
is not a single LINESTRING gets no membership row at all — in particular the
reflexive pair (7, 7) is absent. -/
theorem connectivity_reflexive_cex :
    c6Road.name = some "A" ∧ "A" ≠ "" ∧
    (7, 7) ∉ roadsSameNameConnected [c6Road] := by decide

/-- C6 amended: every road whose name is non-NULL and non-blank after trimming
and whose merged geometry is a single LineString is reflexively a member of its
own component, even with no edges; multi-part roads are excluded from the graph. -/
theorem connectivity_reflexive (roads : List Road) (r : Road) (hr : r ∈ roads)
    (nm : String) (hname : r.name = some nm) (hnm : ¬ btrim nm = "")
    (p : GeomPart) (hparts : r.mergedParts = [p]) :
    (r.roadOsmId, r.roadOsmId) ∈ roadsSameNameConnected roads := by
  have hep : (⟨r.roadOsmId, nm, p.pts.head?, p.pts.getLast?⟩ : EpRow) ∈
      roadsSameNameEndpoints roads := by
    apply List.mem_filterMap.mpr
    refine ⟨r, hr, ?_⟩
    simp [hname, hparts, hnm]
  unfold roadsSameNameConnected
  rw [List.mem_dedup]
  apply List.mem_append.mpr
  right
  exact List.mem_map.mpr ⟨_, hep, rfl⟩

/-- Witness road for the reflexivity claim: a single-part named road. -/
def c6GoodRoad : Road := ⟨8, some "B", "residential", [⟨[(0, 0), (1, 0)], 1⟩]⟩

theorem connectivity_reflexive_witness :
    (8, 8) ∈ roadsSameNameConnected [c6GoodRoad] :=
  connectivity_reflexive [c6GoodRoad] c6GoodRoad (by decide) "B" rfl (by decide)
    ⟨[(0, 0), (1, 0)], 1⟩ rfl

theorem idxBefore_irrefl (a : Option ℚ) : idxBefore a a = false := by
  cases a <;> simp [idxBefore]

theorem idxBefore_trans {a b c : Option ℚ} (hab : idxBefore a b = true)
    (hbc : idxBefore b c = true) : idxBefore a c = true := by
  cases a <;> cases b <;> cases c <;> simp_all [idxBefore]
  linarith

theorem segBetter_irrefl (w : EnrichWorld) (cp : CwPointRow) (a : SegDistRow) :
    segBetter w cp a a = false := by
  simp [segBetter, idxBefore_irrefl]

theorem segBetter_trans (w : EnrichWorld) (cp : CwPointRow) (a b c : SegDistRow)
    (hab : segBetter w cp a b = true) (hbc : segBetter w cp b c = true) :
    segBetter w cp a c = true := by
  simp only [segBetter, Bool.or_eq_true, Bool.and_eq_true, decide_eq_true_eq] at hab hbc ⊢
  rcases hab with h1 | ⟨he1, hd1⟩
  · rcases hbc with h2 | ⟨he2, hd2⟩
    · exact Or.inl (idxBefore_trans h1 h2)
    · exact Or.inl (he2 ▸ h1)
  · rcases hbc with h2 | ⟨he2, hd2⟩
    · refine Or.inl ?_
      rw [he1]
      exact h2
    · exact Or.inr ⟨he1.trans he2, lt_trans hd1 hd2⟩

theorem pickFirstBest_ne_nil {α : Type _} {better : α → α → Bool} {l : List α}
    (h : pickFirstBest better l = none) : l = [] := by
  cases l with
  | nil => rfl
  | cons x xs => exact Option.noConfusion h

/-- C7: when at least one candidate segment lies within the snap tolerance, the
enricher's chosen segment has the highest `frogger_index` (NULLS LAST) among
all candidates, index ties are broken by smallest distance to the point, and
the attached `frogger_index` is forced to exactly 0 whenever the chosen
segment's road class is residential, living_street, or service. -/
theorem enricher_best_and_override (w : EnrichWorld) (cp : CwPointRow)
    (hne : enrichCands w cp ≠ []) :
    ∃ b, enrichBest w cp = some b ∧ b ∈ enrichCands w cp ∧
      (∀ c ∈ enrichCands w cp, idxBefore c.froggerIndex b.froggerIndex = false ∧
        (c.froggerIndex = b.froggerIndex →
          w.pointSegDist cp.raw.feat b ≤ w.pointSegDist cp.raw.feat c)) ∧
      (b.highway ∈ overrideClasses → (enrichRow w cp).froggerIndex = some 0) := by
  cases hb : enrichBest w cp with
  | none => exact absurd (pickFirstBest_ne_nil hb) hne
  | some b =>
    refine ⟨b, rfl, pickFirstBest_mem hb, ?_, ?_⟩
    · intro c hc
      have h := pickFirstBest_spec (segBetter_irrefl w cp) (segBetter_trans w cp) hb c hc
      simp only [segBetter, Bool.or_eq_false_iff, Bool.and_eq_false_iff,
        decide_eq_false_iff_not, not_lt] at h
      refine ⟨h.1, fun he => ?_⟩
      rcases h.2 with h2 | h2
      · exact absurd he h2
      · exact h2
    · intro hov
      unfold enrichRow
      rw [hb]
      simp [hov]

/-- Witness data for the enricher-selection claim. -/
def c7Seg : SegDistRow :=
  ⟨1, 0, "residential", none, none, none, none, none, none, none, none, none, none,
   some 1⟩

/-- Witness crossing point feature for the enricher-selection claim. -/
def c7Pt : PointFeature := ⟨9, some "crossing", [("crossing", "unmarked")], false⟩

/-- Witness `crosswalk_points` row for the enricher-selection claim. -/
def c7Cp : CwPointRow :=
  ⟨⟨c7Pt, crossingType c7Pt.tags, markedCol c7Pt.tags, unmarkedCol c7Pt.tags⟩, [1]⟩

/-- Witness world for the enricher-selection claim. -/
def c7World : EnrichWorld := ⟨[c7Pt], [], [c7Seg], fun _ _ => 0, fun _ _ => 0⟩

theorem enricher_best_and_override_witness :
    enrichCands c7World c7Cp ≠ [] ∧
    (∃ b, enrichBest c7World c7Cp = some b ∧ b ∈ enrichCands c7World c7Cp ∧
      (∀ c ∈ enrichCands c7World c7Cp, idxBefore c.froggerIndex b.froggerIndex = false ∧
        (c.froggerIndex = b.froggerIndex →
          c7World.pointSegDist c7Cp.raw.feat b ≤ c7World.pointSegDist c7Cp.raw.feat c)) ∧
      (b.highway ∈ overrideClasses → (enrichRow c7World c7Cp).froggerIndex = some 0)) :=
  ⟨by decide, enricher_best_and_override c7World c7Cp (by decide)⟩

/-- C8 counterexample point: an unmarked crossing with no road nearby. -/
def c8Pt : PointFeature := ⟨10, some "crossing", [("crossing", "unmarked")], false⟩

/-- C8 counterexample world: the point is the only feature; no roads exist. -/
def c8World : EnrichWorld := ⟨[c8Pt], [], [], fun _ _ => 0, fun _ _ => 0⟩

/-- C8 counterexample: an unmarked crossing point with no linkage is dropped by
the inner join building `crosswalk_points`, so the enricher emits zero rows for
it instead of exactly one; moreover the enricher's snap tolerance 0.5 is larger
than the linker's snap distance 0.2, not strictly smaller. -/
theorem enricher_row_count_cex :
    sqlIsTrue (unmarkedCol c8Pt.tags) = true ∧
    (crosswalkRawPoints c8World.points).length = 1 ∧
    unmarkedCrosswalkPointsEnriched c8World = [] ∧
    ¬ enrichSnapTol < snapDist := by decide

theorem enrichRow_pointOsmId (w : EnrichWorld) (cp : CwPointRow) :
    (enrichRow w cp).pointOsmId = cp.raw.feat.osmId := by
  unfold enrichRow
  cases enrichBest w cp <;> rfl

theorem mem_enrichCands_iff (w : EnrichWorld) (cp : CwPointRow) (s : SegDistRow) :
    s ∈ enrichCands w cp ↔
      (s ∈ w.segRows ∧ s.roadOsmId ∈ cp.roadOsmIds ∧
        w.pointSegDist cp.raw.feat s ≤ enrichSnapTol) := by
  unfold enrichCands
  rw [List.mem_flatMap]
  constructor
  · rintro ⟨rid, hrid, hmem⟩
    rcases List.mem_filter.mp hmem with ⟨hs, hpred⟩
    have hp := of_decide_eq_true hpred
    exact ⟨hs, hp.1 ▸ hrid, hp.2⟩
  · rintro ⟨hs, hrid, hd⟩
    exact ⟨s.roadOsmId, hrid, List.mem_filter.mpr ⟨hs, decide_eq_true ⟨rfl, hd⟩⟩⟩

theorem mem_roadsByPoint_iff (w : EnrichWorld) (pid rid : Int) :
    rid ∈ roadsByPoint w pid ↔
      ∃ rc ∈ roadCrosswalks w, rc.pointOsmId = pid ∧ rc.roadOsmId = rid := by
  unfold roadsByPoint
  rw [List.mem_insertionSort, List.mem_dedup, List.mem_map]
  constructor
  · rintro ⟨rc, hrc, rfl⟩
    rcases List.mem_filter.mp hrc with ⟨h1, h2⟩
    exact ⟨rc, h1, of_decide_eq_true h2, rfl⟩
  · rintro ⟨rc, hrc, hpid, rfl⟩
    exact ⟨rc, List.mem_filter.mpr ⟨hrc, decide_eq_true hpid⟩, rfl⟩

theorem crosswalkPoints_map_raw (w : EnrichWorld) :
    (crosswalkPoints w).map (fun cp => cp.raw) =
      (crosswalkRawPoints w.points).filter
        (fun cp => decide (roadsByPoint w cp.feat.osmId ≠ [])) := by
  unfold crosswalkPoints
  generalize crosswalkRawPoints w.points = l
  induction l with
  | nil => rfl
  | cons x xs ih =>
    rw [List.filterMap_cons, List.filter_cons]
    cases hg : roadsByPoint w x.feat.osmId with
    | nil => simp [hg, ih]
    | cons rid rids => simp [hg, ih]

theorem crosswalkPoints_ids_nodup (w : EnrichWorld)
    (hnd : (w.points.map PointFeature.osmId).Nodup) :
    ((crosswalkPoints w).map (fun cp => cp.raw.feat.osmId)).Nodup := by
  have hraw : ((crosswalkRawPoints w.points).map (fun r => r.feat.osmId)).Nodup := by
    unfold crosswalkRawPoints
    rw [List.map_map]
    exact hnd.sublist ((List.filter_sublist _).map _)
  have h2 : ((crosswalkPoints w).map (fun cp => cp.raw.feat.osmId)) =
      (((crosswalkRawPoints w.points).filter
        (fun cp => decide (roadsByPoint w cp.feat.osmId ≠ []))).map
          (fun r => r.feat.osmId)) := by
    rw [← crosswalkPoints_map_raw, List.map_map]
    rfl
  rw [h2]
  exact hraw.sublist ((List.filter_sublist _).map _)

theorem countP_filter_eq_one {α : Type _} (f : α → Int) (q : α → Bool) (l : List α)
    (hnd : (l.map f).Nodup) (a : α) (ha : a ∈ l) (hq : q a = true) :
    (l.filter q).countP (fun x => decide (f x = f a)) = 1 := by
  induction l with
  | nil => cases ha
  | cons x xs ih =>
    rw [List.map_cons, List.nodup_cons] at hnd
    rcases List.mem_cons.mp ha with rfl | ha'
    · rw [List.filter_cons, if_pos hq,
        List.countP_cons_of_pos _ _ (by simp)]
      have hz : (xs.filter q).countP (fun y => decide (f y = f a)) = 0 := by
        rw [List.countP_eq_zero]
        intro y hy
        have hyx : y ∈ xs := List.mem_of_mem_filter hy
        simp only [decide_eq_true_eq]
        intro hfy
        exact hnd.1 (List.mem_map.mpr ⟨y, hyx, hfy⟩)
      rw [hz]
    · have hfx : ¬ f x = f a := by
        intro hfx
        exact hnd.1 (List.mem_map.mpr ⟨a, ha', hfx.symm⟩)
      rw [List.filter_cons]
      by_cases hqx : q x = true
      · rw [if_pos hqx, List.countP_cons_of_neg _ _ (by simp [hfx])]
        exact ih hnd.2 ha'
      · rw [if_neg hqx]
        exact ih hnd.2 ha'

theorem crosswalkPoints_roadOsmIds (w : EnrichWorld) (cp : CwPointRow)
    (hcp : cp ∈ crosswalkPoints w) :
    cp.roadOsmIds = roadsByPoint w cp.raw.feat.osmId ∧ cp.roadOsmIds ≠ [] := by
  rcases List.mem_filterMap.mp hcp with ⟨cpr, _, heq⟩
  cases hg : roadsByPoint w cpr.feat.osmId with
  | nil => rw [hg] at heq; exact Option.noConfusion heq
  | cons rid rids =>
    rw [hg] at heq
    cases Option.some.inj heq
    exact ⟨hg.symm, by simp⟩

/-- C8 amended: every unmarked crossing point that acquired at least one linkage
yields exactly one enricher row; its candidate segments are exactly the stored
segments of its linked roads within the 0.5 snap tolerance — a tolerance larger
than the linker's 0.2 snap distance, not smaller — and with no candidate in
tolerance the row carries all-NULL road attributes. -/
theorem enricher_one_row_per_linked_point (w : EnrichWorld)
    (hnd : (w.points.map PointFeature.osmId).Nodup)
    (cp : CwPointRow) (hcp : cp ∈ crosswalkPoints w)
    (hun : sqlIsTrue cp.raw.unmarked = true) :
    ((unmarkedCrosswalkPointsEnriched w).countP
        (fun row => decide (row.pointOsmId = cp.raw.feat.osmId)) = 1) ∧
    (∀ s, s ∈ enrichCands w cp ↔
      (s ∈ w.segRows ∧ s.roadOsmId ∈ cp.roadOsmIds ∧
        w.pointSegDist cp.raw.feat s ≤ enrichSnapTol)) ∧
    (∀ rid, rid ∈ cp.roadOsmIds ↔
      ∃ rc ∈ roadCrosswalks w, rc.pointOsmId = cp.raw.feat.osmId ∧ rc.roadOsmId = rid) ∧
    (enrichCands w cp = [] →
      (enrichRow w cp).froggerRoadOsmId = none ∧
        (enrichRow w cp).froggerRoadHighway = none ∧
        (enrichRow w cp).froggerIndex = none) ∧
    snapDist < enrichSnapTol := by
  refine ⟨?_, fun s => mem_enrichCands_iff w cp s, ?_, ?_, by decide⟩
  · unfold unmarkedCrosswalkPointsEnriched
    rw [List.countP_map]
    have hcong : ∀ c ∈ (crosswalkPoints w).filter (fun c => sqlIsTrue c.raw.unmarked),
        (((fun row : EnrichedRow => decide (row.pointOsmId = cp.raw.feat.osmId)) ∘
          (enrichRow w)) c = true ↔
          (fun c : CwPointRow => decide (c.raw.feat.osmId = cp.raw.feat.osmId)) c = true) := by
      intro c _
      simp [Function.comp, enrichRow_pointOsmId]
    rw [List.countP_congr hcong]
    exact countP_filter_eq_one (fun c => c.raw.feat.osmId)
      (fun c => sqlIsTrue c.raw.unmarked) (crosswalkPoints w)
      (crosswalkPoints_ids_nodup w hnd) cp hcp hun
  · intro rid
    rw [(crosswalkPoints_roadOsmIds w cp hcp).1]
    exact mem_roadsByPoint_iff w _ rid
  · intro h
    unfold enrichRow enrichBest
    rw [h]
    exact ⟨rfl, rfl, rfl⟩

/-- Witness road line for the one-row-per-point claim. -/
def c8wLine : LineFeature := ⟨21, some "primary", some "Elm", some [⟨[(0, 0), (1, 0)], 30⟩], [], false⟩

/-- Witness crossing point for the one-row-per-point claim. -/
def c8wPt : PointFeature := ⟨22, some "crossing", [("crossing", "unmarked")], false⟩

/-- Witness world for the one-row-per-point claim. -/
def c8wWorld : EnrichWorld := ⟨[c8wPt], [c8wLine], [], fun _ _ => 0, fun _ _ => 0⟩

/-- Witness `crosswalk_points` row for the one-row-per-point claim. -/
def c8wCp : CwPointRow :=
  ⟨⟨c8wPt, crossingType c8wPt.tags, markedCol c8wPt.tags, unmarkedCol c8wPt.tags⟩, [21]⟩

theorem enricher_one_row_per_linked_point_witness :
    ((c8wWorld.points.map PointFeature.osmId).Nodup ∧
      c8wCp ∈ crosswalkPoints c8wWorld ∧ sqlIsTrue c8wCp.raw.unmarked = true) ∧
    ((unmarkedCrosswalkPointsEnriched c8wWorld).countP
        (fun row => decide (row.pointOsmId = c8wCp.raw.feat.osmId)) = 1) ∧
    snapDist < enrichSnapTol :=
  ⟨⟨by decide, by decide, by decide⟩,
   (enricher_one_row_per_linked_point c8wWorld (by decide) c8wCp (by decide) (by decide)).1,
   (enricher_one_row_per_linked_point c8wWorld (by decide) c8wCp (by decide) (by decide)).2.2.2.2⟩

/-- C10: every road emitted by the classifier carries a highway class from the
fixed ten-element vocabulary, which contains neither `service` nor `motorway`;
road segments inherit the class, so no road-derived record can trigger the
service arm of the residential/living_street/service difficulty override. -/
theorem roads_highway_vocab (lines : List LineFeature) :
    (∀ r ∈ roadsTable lines,
      r.highway ∈ roadHighways ∧ r.highway ≠ "service" ∧ r.highway ≠ "motorway") ∧
    (∀ s ∈ roadSegments20m (roadsTable lines),
      s.highway ∈ roadHighways ∧ s.highway ≠ "service") ∧
    "service" ∉ roadHighways ∧ "motorway" ∉ roadHighways := by
  have hs : "service" ∉ roadHighways := by decide
  have hm : "motorway" ∉ roadHighways := by decide
  have hroad : ∀ r ∈ roadsTable lines, r.highway ∈ roadHighways := by
    intro r hr
    rcases List.mem_filterMap.mp hr with ⟨l, _, hl⟩
    rcases hway : l.way with _ | parts
    · rw [hway] at hl
      exact Option.noConfusion hl
    · rcases hhw : l.highway with _ | h
      · rw [hway, hhw] at hl
        exact Option.noConfusion hl
      · rw [hway, hhw] at hl
        have hl' : (if h ∈ roadHighways ∧ (useBbox = false ∨ l.bboxHit = true) then
            some (⟨l.osmId, l.name, h, parts⟩ : Road) else none) = some r := hl
        by_cases hcond : h ∈ roadHighways ∧ (useBbox = false ∨ l.bboxHit = true)
        · rw [if_pos hcond] at hl'
          cases Option.some.inj hl'
          exact hcond.1
        · rw [if_neg hcond] at hl'
          exact Option.noConfusion hl'
  refine ⟨fun r hr => ⟨hroad r hr, ?_, ?_⟩, ?_, hs, hm⟩
  · intro he
    exact hs (he ▸ hroad r hr)
  · intro he
    exact hm (he ▸ hroad r hr)
  · intro s hseg
    rcases List.mem_flatMap.mp hseg with ⟨r, hr, hs1⟩
    rcases List.mem_flatMap.mp hs1 with ⟨p, _, hs2⟩
    rcases List.mem_map.mp hs2 with ⟨n, _, rfl⟩
    refine ⟨hroad r hr, fun he => hs (he ▸ hroad r hr)⟩

/-- Witness line feature for the highway-vocabulary claim. -/
def c10Line : LineFeature :=
  ⟨11, some "primary", some "Main", some [⟨[(0, 0), (1, 0)], 30⟩], [], false⟩

/-- Witness road for the highway-vocabulary claim. -/
def c10Road : Road := ⟨11, some "Main", "primary", [⟨[(0, 0), (1, 0)], 30⟩]⟩

theorem roads_highway_vocab_witness :
    c10Road ∈ roadsTable [c10Line] ∧
    c10Road.highway ∈ roadHighways ∧ c10Road.highway ≠ "service" :=
  ⟨by decide, ((roads_highway_vocab [c10Line]).1 c10Road (by decide)).1,
   ((roads_highway_vocab [c10Line]).1 c10Road (by decide)).2.1⟩
